import Mathlib

/-!
Verification development for the pkgstats tool (main.go).

The program searches GitHub for popular Go repositories, inspects each
repository's go.mod manifest for a direct (non-indirect) requirement of a
target package, caches results in a CSV file, and supports cooperative
cancellation.  The definitions below are a shallow embedding of the Go
source: pure data flow is translated to Lean functions, the paginated
search loop becomes a fuel-indexed step function, context cancellation is
modelled as a countdown of cancellation checks, and the remote API is
passed in as an explicit environment.
-/

/-- Mirrors the Go struct repoResult (main.go lines 183-187):
name, used flag, star count.  Go's int is modelled as Int. -/
structure repoResult where
  name : String
  used : Bool
  stars : Int
deriving DecidableEq

/-- A candidate repository as returned by the repository-search endpoint:
the fields of the GitHub repo descriptor that main.go reads
(GetFullName, GetArchived, GetDisabled, GetFork, GetStargazersCount). -/
structure Repo where
  fullName : String
  archived : Bool
  disabled : Bool
  fork : Bool
  stargazersCount : Int
deriving DecidableEq

/-- One entry of a parsed go.mod require section: module path and the
indirect marker (modfile.Require). -/
structure Require where
  path : String
  indirect : Bool
deriving DecidableEq

/-- Go maps from string keys to repoResult are modelled as functions to
Option. -/
def ResultMap : Type := String → Option repoResult

/-- The value of make(map[string]repoResult): empty everywhere. -/
def emptyMap : ResultMap := fun _ => none

/-- Go map assignment m[k] = v. -/
def mapInsert (m : ResultMap) (k : String) (v : repoResult) : ResultMap :=
  fun q => if q = k then some v else m q

/-- Decimal digit value of a character, none for a non-digit
(strconv's digit check). -/
def digitVal (c : Char) : Option Nat :=
  if '0' ≤ c ∧ c ≤ '9' then some (c.toNat - '0'.toNat) else none

/-- Accumulate decimal digits left to right; none on the first
non-digit character. -/
def parseDigitsGo : List Char → Nat → Option Nat
  | [], acc => some acc
  | c :: rest, acc =>
    match digitVal c with
    | none => none
    | some d => parseDigitsGo rest (acc * 10 + d)

/-- Parse a non-empty all-digit string to a Nat. -/
def parseDigits : List Char → Option Nat
  | [] => none
  | cs => parseDigitsGo cs 0

/-- Smallest value of Go's 64-bit int. -/
def int64Min : Int := -9223372036854775808

/-- Largest value of Go's 64-bit int. -/
def int64Max : Int := 9223372036854775807

/-- Model of Go's strconv.Atoi on a 64-bit platform: an optional leading
sign followed by at least one decimal digit, with an int64 range check.
Note Atoi accepts negative numbers: there is no non-negativity check. -/
def atoi (s : String) : Option Int :=
  match s.toList with
  | [] => none
  | c :: rest =>
    let signed : Bool × List Char :=
      if c = '-' then (true, rest)
      else if c = '+' then (false, rest)
      else (false, c :: rest)
    match parseDigits signed.2 with
    | none => none
    | some n =>
      let v : Int := if signed.1 then -(n : Int) else (n : Int)
      if int64Min ≤ v ∧ v ≤ int64Max then some v else none

/-- Outcome of the cache-loading loop in run (main.go lines 94-105):
either the hydrated map, the early return on a bad star-count field
(the strconv.Atoi error), or a Go runtime index-out-of-range failure
from evaluating record[2] on a row with fewer than three fields. -/
inductive LoadResult where
  | ok (m : ResultMap)
  | corrupt
  | oob

/-- The loop body of the cache load (main.go lines 95-105): for each CSV
record, record[2] is converted with Atoi (out-of-range index if the row
is shorter than three fields; early error return if the conversion
fails), then the row is stored under key record[0] with
used = (record[1] == "true"). -/
def loadCacheGo : List (List String) → ResultMap → LoadResult
  | [], m => .ok m
  | record :: rest, m =>
    match record with
    | f0 :: f1 :: f2 :: _ =>
      match atoi f2 with
      | none => .corrupt
      | some stars => loadCacheGo rest (mapInsert m f0 ⟨f0, f1 == "true", stars⟩)
    | _ => .oob

/-- Cache load starting from the empty map (main.go lines 94-105). -/
def loadCache (records : List (List String)) : LoadResult :=
  loadCacheGo records emptyMap

/-- The top-level merge in run (main.go lines 136-140): entries of
newResults are added only for keys absent from results; existing
entries are never overwritten. -/
def mergeRun (results newResults : ResultMap) : ResultMap :=
  fun k =>
    match results k with
    | some v => some v
    | none => newResults k

/-- The per-page merge in Search (main.go lines 240-242): every entry of
the page map is assigned into the accumulator, overwriting any entry
already present under the same key. -/
def updateResults (results pageResults : ResultMap) : ResultMap :=
  fun k =>
    match pageResults k with
    | some v => some v
    | none => results k

/-- Sequentially merging a list of page maps into an initially empty
accumulator, as the Search loop does page by page. -/
def mergePages (pages : List ResultMap) : ResultMap :=
  pages.foldl updateResults emptyMap

/-- Abstract run pipeline (main.go run): load the cache, abort before any
search on a load failure, otherwise search (abstracted as a function of
the loaded cache) and merge the new results into the cache. -/
inductive RunResult where
  | loadError
  | indexOob
  | completed (final : ResultMap)

/-- run's sequencing of load, search, and merge (main.go lines 88-140):
a load failure returns before the search step ever runs. -/
def runModel (records : List (List String)) (search : ResultMap → ResultMap) : RunResult :=
  match loadCache records with
  | .corrupt => .loadError
  | .oob => .indexOob
  | .ok cache => .completed (mergeRun cache (search cache))

/-- The require-section loop of searchInRepositories (main.go lines
350-357): walk the require entries and stop at the first entry whose
module path equals the package name and whose Indirect flag is unset. -/
def checkRequires (pkg : String) : List Require → Bool
  | [] => false
  | req :: rest =>
    if req.path == pkg && !req.indirect then true else checkRequires pkg rest

/-- Outcome of processing one matched go.mod file (main.go lines
321-347): the download, read, close, or parse step may fail (each is
logged and the file skipped), or the file parses to a require list. -/
inductive FileStep where
  | downloadErr
  | readErr
  | closeErr
  | parseErr
  | parsed (reqs : List Require)
deriving DecidableEq

/-- Whether a single file's outcome yields a direct match: failed files
contribute nothing, a parsed file contributes its require scan. -/
def fileHasDirect (pkg : String) : FileStep → Bool
  | .parsed reqs => checkRequires pkg reqs
  | _ => false

/-- The files loop of searchInRepositories (main.go lines 321-359):
every file in CodeResults triggers a DownloadContents call (counted in
the second component), and a successfully parsed file may set the used
flag, which is never cleared afterwards.  There is no exit from this
loop once used becomes true. -/
def inspectFiles (pkg : String) : List FileStep → Bool → Bool × Nat
  | [], used => (used, 0)
  | f :: rest, used =>
    let used2 :=
      match f with
      | .parsed reqs => used || checkRequires pkg reqs
      | _ => used
    let r := inspectFiles pkg rest used2
    (r.1, r.2 + 1)

/-- Context cancellation is modelled as a countdown of select checks:
some 0 means the Done channel is ready at the current check. -/
def ctxFire : Option Nat → Bool
  | some 0 => true
  | _ => false

/-- Advance the cancellation countdown past one select check. -/
def ctxDec : Option Nat → Option Nat
  | some (n + 1) => some n
  | x => x

/-- The candidate loop of searchInRepositories (main.go lines 273-372).
Per candidate, a select first checks the context (returning the results
accumulated so far, with no error when the cause is Canceled); then
archived, disabled, and forked repositories are skipped, cached
repositories are skipped, and otherwise the repository's go.mod files
(provided by the env as the outcome of the code-search call, which may
itself fail and skip the repository) are inspected and a fully built
repoResult is stored.  The second component logs the repositories for
which the code search was actually issued (the Checking print at line
297). -/
def scanPageGo (pkg : String) (cache : ResultMap)
    (env : String → Except Unit (List FileStep)) (canceled : Bool) :
    List Repo → Option Nat → ResultMap → List String →
    ResultMap × List String × Option Unit
  | [], _, results, checked => (results, checked, none)
  | repo :: rest, cancelAt, results, checked =>
    if ctxFire cancelAt then
      if canceled then (results, checked, none) else (results, checked, some ())
    else
      let c2 := ctxDec cancelAt
      if repo.archived || repo.disabled || repo.fork then
        scanPageGo pkg cache env canceled rest c2 results checked
      else
        match cache repo.fullName with
        | some _ => scanPageGo pkg cache env canceled rest c2 results checked
        | none =>
          match env repo.fullName with
          | .error _ =>
            scanPageGo pkg cache env canceled rest c2 results
              (checked ++ [repo.fullName])
          | .ok files =>
            scanPageGo pkg cache env canceled rest c2
              (mapInsert results repo.fullName
                ⟨repo.fullName, (inspectFiles pkg files false).1,
                  repo.stargazersCount⟩)
              (checked ++ [repo.fullName])

/-- State of the run's context at a given select check in Search. -/
inductive CtxState where
  | notDone
  | canceledDone
  | deadlineDone
deriving DecidableEq

/-- The two error returns of Search: the context error propagated from
the Done branch, and the fatal repository-search error. -/
inductive SearchErr where
  | ctxErr
  | fetchErr
deriving DecidableEq

/-- The pagination loop of Search (main.go lines 212-257), fuel-indexed.
Each iteration is one pass of the for/select: check the context; fetch
the current page (a fetch error is fatal); scan the page (a scan error
is logged and the loop continues -- note this skips the page advance at
line 253); merge the page results; when resp.NextPage is zero the Go
break leaves only the select, so the loop re-enters with opts.Page
unchanged; otherwise sleep and advance to the next page.  Returns none
when the fuel runs out before the function returns, paired with the
trace of pages for which the repository-search call was issued. -/
def searchLoop (fetch : Nat → Except Unit (List Repo × Nat))
    (scan : Nat → List Repo → Except Unit ResultMap)
    (ctx : Nat → CtxState) :
    Nat → Nat → ResultMap → Nat →
    Option (ResultMap × Option SearchErr) × List Nat
  | _, _, _, 0 => (none, [])
  | iter, page, results, fuel + 1 =>
    match ctx iter with
    | .canceledDone => (some (results, none), [])
    | .deadlineDone => (some (results, some .ctxErr), [])
    | .notDone =>
      match fetch page with
      | .error _ => (some (results, some .fetchErr), [page])
      | .ok (repos, nextPage) =>
        match scan iter repos with
        | .error _ =>
          let r := searchLoop fetch scan ctx (iter + 1) page results fuel
          (r.1, page :: r.2)
        | .ok pageResults =>
          let results2 := updateResults results pageResults
          if nextPage = 0 then
            let r := searchLoop fetch scan ctx (iter + 1) page results2 fuel
            (r.1, page :: r.2)
          else
            let r := searchLoop fetch scan ctx (iter + 1) nextPage results2 fuel
            (r.1, page :: r.2)

/-- One persisted CSV row (main.go lines 167-176): name, "true" or
"false" from the used flag, and the decimal star count. -/
def serializeRow (r : repoResult) : List String :=
  [r.name, if r.used then "true" else "false", toString r.stars]

/-- Ordering of rows in the persisted file: the sort.Slice comparator at
main.go line 149 is stars i greater than stars j, so a sorted slice has
pairwise non-increasing star counts.  starsGe a b says a may come
before b. -/
abbrev starsGe (a b : repoResult) : Prop := b.stars ≤ a.stars

instance : IsTotal repoResult starsGe :=
  ⟨fun a b => (Int.le_total b.stars a.stars).elim Or.inl Or.inr⟩

instance : IsTrans repoResult starsGe :=
  ⟨fun _ _ _ hab hbc => le_trans hbc hab⟩

/-- Possible slices produced by lines 143-150 of main.go: lo.MapToSlice
enumerates a Go map in unspecified order, and sort.Slice (which is not
guaranteed stable) may produce any reordering that the comparator
considers sorted.  So a list out is a possible sorted slice for a map
whose entries, in insertion order, are the list entries, exactly when
out is a permutation of entries with pairwise non-increasing stars. -/
def persistRel (entries out : List repoResult) : Prop :=
  out.Perm entries ∧ out.Pairwise starsGe

/-- Modelled from the spec: the stable descending sort the specification
asks for in Persist -- rows sorted by star count descending, with ties
broken by original insertion order.  Insertion sort with a total
preorder is stable, so this is the stable reference order the claims
compare against. -/
def specStableDescSort (l : List repoResult) : List repoResult :=
  List.insertionSort starsGe l

/-- Environment of a run that has reached its last page: the repository
search succeeds and reports no further page (NextPage equals zero). -/
def constFetchLastPage : Nat → Except Unit (List Repo × Nat) := fun _ => .ok ([], 0)

/-- A scan step that always succeeds with no new results. -/
def scanOkEmpty : Nat → List Repo → Except Unit ResultMap := fun _ _ => .ok emptyMap

/-- A context that is never cancelled. -/
def ctxNeverDone : Nat → CtxState := fun _ => .notDone

/-- Go's csv reader accepts a file exactly when every record has the
same number of fields as the first one. -/
abbrev uniformFieldCount (records : List (List String)) : Prop :=
  ∀ r ∈ records, ∀ s ∈ records, r.length = s.length

/-- Two page maps never hold an entry under a common key. -/
def MapDisjoint (p q : ResultMap) : Prop := ∀ k, p k = none ∨ q k = none

/-- Environment of the specification's section 8 example: one go.mod
parsing to a single direct requirement of acme/widget. -/
def exEnv3 : String → Except Unit (List FileStep) :=
  fun _ => .ok [.parsed [⟨"acme/widget", false⟩]]

/-- The specification's section 8 example repository. -/
def exRepo3 : Repo := ⟨"org/repo1", false, false, false, 5000⟩

/-- A cache holding the already-scanned repository org/cached. -/
def exCache2 : ResultMap :=
  mapInsert emptyMap "org/cached" ⟨"org/cached", true, 7⟩

/-- The cached repository offered again by the search. -/
def exRepo2 : Repo := ⟨"org/cached", false, false, false, 7⟩

/-- An environment whose code search returns no files. -/
def exEnv2 : String → Except Unit (List FileStep) := fun _ => .ok []

/-- A fetch whose responses always report page 2 as the next page. -/
def fetch7 : Nat → Except Unit (List Repo × Nat) := fun _ => .ok ([], 2)

/-- A scan step that fails at the first iteration and succeeds after. -/
def scan7 : Nat → List Repo → Except Unit ResultMap :=
  fun i _ => if i = 0 then .error () else .ok emptyMap

/-- A page reporting repo/x as used. -/
def exP9a : ResultMap := mapInsert emptyMap "repo/x" ⟨"repo/x", true, 5⟩

/-- A page reporting repo/x as unused. -/
def exP9b : ResultMap := mapInsert emptyMap "repo/x" ⟨"repo/x", false, 5⟩

/-- A page holding only the repository one/a. -/
def exQ9a : ResultMap := mapInsert emptyMap "one/a" ⟨"one/a", true, 3⟩

/-- A page holding only the repository two/b. -/
def exQ9b : ResultMap := mapInsert emptyMap "two/b" ⟨"two/b", false, 4⟩

/-- A repository with one star, inserted first. -/
def exA5 : repoResult := ⟨"alpha/a", false, 1⟩

/-- A repository with one star, inserted second. -/
def exB5 : repoResult := ⟨"beta/b", false, 1⟩

/-- Corruption outcomes of the cache load depend only on the star
fields, for rows long enough for record[2] to be in bounds. -/
theorem loadCacheGo_corrupt_iff (records : List (List String)) :
    ∀ m : ResultMap, (∀ r ∈ records, 3 ≤ r.length) →
      (loadCacheGo records m = .corrupt ↔
        ∃ r ∈ records, atoi (r.getD 2 "") = none) := by
  induction records with
  | nil =>
    intro m _
    simp [loadCacheGo]
  | cons rec rest ih =>
    intro m h
    have hlen : 3 ≤ rec.length := h rec (List.mem_cons_self ..)
    have hrest : ∀ r ∈ rest, 3 ≤ r.length :=
      fun r hr => h r (List.mem_cons_of_mem _ hr)
    cases rec with
    | nil => simp at hlen
    | cons f0 r1 =>
      cases r1 with
      | nil => simp at hlen
      | cons f1 r2 =>
        cases r2 with
        | nil => simp at hlen
        | cons f2 t =>
          cases hA : atoi f2 with
          | none =>
            constructor
            · intro _
              exact ⟨f0 :: f1 :: f2 :: t, List.mem_cons_self ..,
                by simpa [List.getD] using hA⟩
            · intro _
              simp [loadCacheGo, hA]
          | some n =>
            have hstep : loadCacheGo ((f0 :: f1 :: f2 :: t) :: rest) m
                = loadCacheGo rest (mapInsert m f0 ⟨f0, f1 == "true", n⟩) := by
              simp [loadCacheGo, hA]
            rw [hstep, ih _ hrest]
            constructor
            · rintro ⟨r, hr, hbad⟩
              exact ⟨r, List.mem_cons_of_mem _ hr, hbad⟩
            · rintro ⟨r, hr, hbad⟩
              rcases List.mem_cons.mp hr with rfl | hr2
              · rw [show (f0 :: f1 :: f2 :: t).getD 2 "" = f2 from rfl] at hbad
                rw [hbad] at hA
                cases hA
              · exact ⟨r, hr2, hbad⟩

/-- C1.  The paginated search does not terminate when the response
reports that no further page exists.  The break at main.go line 245
leaves only the enclosing select, not the for loop, so the loop
re-enters with opts.Page unchanged and issues the same search again,
forever: for every amount of fuel, the loop has not returned.  The
claim (and section 4.4 of the specification) instead requires Search to
transition to Done and return the accumulated results. -/
theorem claim1_search_does_not_stop_on_last_page :
    ∀ (fuel iter page : Nat) (results : ResultMap),
      (searchLoop constFetchLastPage scanOkEmpty ctxNeverDone
        iter page results fuel).1 = none := by
  intro fuel
  induction fuel with
  | zero =>
    intro iter page results
    rfl
  | succ n ih =>
    intro iter page results
    simpa [searchLoop, constFetchLastPage, scanOkEmpty, ctxNeverDone] using
      ih (iter + 1) page (updateResults results emptyMap)

/-- C10.  There is a CSV input accepted by the reader -- every row has
the same field count, each smaller than three -- on which the cache
load evaluates record[2] out of bounds (a Go runtime panic) instead of
returning a corruption error. -/
theorem claim10_short_row_out_of_bounds :
    ∃ records : List (List String),
      records ≠ [] ∧ uniformFieldCount records ∧
        (∀ r ∈ records, r.length < 3) ∧ loadCache records = .oob := by
  refine ⟨[["org/x", "true"]], by decide, by decide, by decide, rfl⟩

/-- C4, counterexample.  A row whose star field is the negative number
-5 is accepted by the cache load (strconv.Atoi parses signed integers),
and its value is stored; the claim instead requires such a row to be
rejected with a corruption error. -/
theorem claim4_negative_star_count_accepted :
    loadCache [["org/x", "true", "-5"]]
      = .ok (mapInsert emptyMap "org/x" ⟨"org/x", true, -5⟩) := rfl

/-- C4, amended.  For records whose rows all have at least three fields,
the cache load fails with the corruption error exactly when some row's
third field is not a valid decimal integer -- the sign is accepted, so
negative star counts load successfully; an absent cache file (no
records) yields the empty mapping; and a corrupt load makes the run
fail before the search step contributes anything. -/
theorem claim4_load_corrupt_iff_bad_int (records : List (List String))
    (search : ResultMap → ResultMap)
    (h : ∀ r ∈ records, 3 ≤ r.length) :
    (loadCache records = .corrupt ↔
      ∃ r ∈ records, atoi (r.getD 2 "") = none)
    ∧ loadCache [] = .ok emptyMap
    ∧ (loadCache records = .corrupt → runModel records search = .loadError) := by
  refine ⟨loadCacheGo_corrupt_iff records emptyMap h, rfl, ?_⟩
  intro hc
  simp [runModel, hc]

/-- C4, witness: the specification's own example row with a non-numeric
star field is rejected, before any scanning. -/
theorem claim4_witness :
    (∀ r ∈ [["org/x", "true", "notanumber"]], 3 ≤ r.length)
    ∧ ((loadCache [["org/x", "true", "notanumber"]] = .corrupt ↔
        ∃ r ∈ [["org/x", "true", "notanumber"]], atoi (r.getD 2 "") = none)
      ∧ loadCache [] = .ok emptyMap
      ∧ (loadCache [["org/x", "true", "notanumber"]] = .corrupt →
          runModel [["org/x", "true", "notanumber"]] id = .loadError)) :=
  ⟨by decide, claim4_load_corrupt_iff_bad_int [["org/x", "true", "notanumber"]] id (by decide)⟩

/-- The require scan is the Boolean any of a direct-match test. -/
theorem checkRequires_eq_any (pkg : String) (reqs : List Require) :
    checkRequires pkg reqs = reqs.any fun r => r.path == pkg && !r.indirect := by
  induction reqs with
  | nil => rfl
  | cons req rest ih =>
    simp only [checkRequires, List.any_cons, ih]
    cases h : (req.path == pkg && !req.indirect) <;> simp

/-- Propositional reading of the require scan. -/
theorem checkRequires_iff (pkg : String) (reqs : List Require) :
    checkRequires pkg reqs = true ↔
      ∃ r ∈ reqs, r.path = pkg ∧ r.indirect = false := by
  rw [checkRequires_eq_any]
  simp [List.any_eq_true, Bool.and_eq_true, Bool.not_eq_true']

/-- A file outcome yields a direct match exactly when it parsed to a
require list containing one. -/
theorem fileHasDirect_eq_true_iff (pkg : String) (f : FileStep) :
    fileHasDirect pkg f = true ↔
      ∃ reqs, f = .parsed reqs ∧ checkRequires pkg reqs = true := by
  cases f <;> simp [fileHasDirect]

/-- The used flag computed by the files loop: the incoming flag or-ed
with a direct match in any file; an incoming true is never cleared. -/
theorem inspectFiles_fst (pkg : String) (files : List FileStep) :
    ∀ u : Bool,
      (inspectFiles pkg files u).1 = (u || files.any (fileHasDirect pkg)) := by
  induction files with
  | nil =>
    intro u
    simp [inspectFiles]
  | cons f rest ih =>
    intro u
    cases f with
    | parsed reqs =>
      simp [inspectFiles, fileHasDirect, List.any_cons, ih, Bool.or_assoc]
    | downloadErr => simp [inspectFiles, fileHasDirect, List.any_cons, ih]
    | readErr => simp [inspectFiles, fileHasDirect, List.any_cons, ih]
    | closeErr => simp [inspectFiles, fileHasDirect, List.any_cons, ih]
    | parseErr => simp [inspectFiles, fileHasDirect, List.any_cons, ih]

/-- Every file in the code-search result triggers a download attempt. -/
theorem inspectFiles_snd (pkg : String) (files : List FileStep) :
    ∀ u : Bool, (inspectFiles pkg files u).2 = files.length := by
  induction files with
  | nil =>
    intro u
    simp [inspectFiles]
  | cons f rest ih =>
    intro u
    cases f <;> simp [inspectFiles, ih]

/-- C8, counterexample.  With two matched files whose first already
yields a direct match, the files loop still downloads and parses the
second file: the download count is 2, not the 1 the short-circuit in
the claim would give.  The break at main.go line 355 exits only the
require loop, never the files loop. -/
theorem claim8_files_downloaded_after_match :
    inspectFiles "acme/widget"
        [.parsed [⟨"acme/widget", false⟩], .parsed []] false = (true, 2)
    ∧ (2 : Nat) ≠ 1 :=
  ⟨rfl, by decide⟩

/-- C8, amended.  Inspect reports true exactly when the incoming flag
was set or some parsed file yields a direct match (so the flag, once
true, stays true), but it does not short-circuit across files: the
number of download attempts always equals the number of matched files,
even after a match is found.  Only the require-entry scan inside one
file stops at its first direct match. -/
theorem claim8_inspect_downloads_all_files (pkg : String)
    (files : List FileStep) (u : Bool) :
    (inspectFiles pkg files u).2 = files.length
    ∧ (inspectFiles pkg files u).1 = (u || files.any (fileHasDirect pkg)) :=
  ⟨inspectFiles_snd pkg files u, inspectFiles_fst pkg files u⟩

/-- C8, witness at a concrete input. -/
theorem claim8_witness :
    (inspectFiles "acme/widget" [FileStep.parseErr] false).2
        = [FileStep.parseErr].length
    ∧ (inspectFiles "acme/widget" [FileStep.parseErr] false).1
        = (false || [FileStep.parseErr].any (fileHasDirect "acme/widget")) :=
  claim8_inspect_downloads_all_files "acme/widget" [FileStep.parseErr] false

/-- C3.  The used flag of a scanned repository is true exactly when some
successfully parsed manifest file has a require entry whose module path
equals the package and whose indirect flag is false; in particular a
package required only with indirect true gives used false.  The second
conjunct ties this to the scanner: an eligible, uncached repository is
stored as a repoResult whose used field is exactly that flag. -/
theorem claim3_used_iff_direct_require (pkg : String) (files : List FileStep)
    (cache : ResultMap) (env : String → Except Unit (List FileStep))
    (repo : Repo) (h1 : repo.archived = false) (h2 : repo.disabled = false)
    (h3 : repo.fork = false) (h4 : cache repo.fullName = none)
    (h5 : env repo.fullName = .ok files) :
    ((inspectFiles pkg files false).1 = true ↔
      ∃ reqs, FileStep.parsed reqs ∈ files
        ∧ ∃ r ∈ reqs, r.path = pkg ∧ r.indirect = false)
    ∧ (scanPageGo pkg cache env false [repo] none emptyMap []).1 repo.fullName
        = some ⟨repo.fullName, (inspectFiles pkg files false).1,
            repo.stargazersCount⟩ := by
  constructor
  · rw [inspectFiles_fst]
    simp only [Bool.false_or, List.any_eq_true]
    constructor
    · rintro ⟨f, hf, hdir⟩
      rw [fileHasDirect_eq_true_iff] at hdir
      obtain ⟨reqs, rfl, hcr⟩ := hdir
      exact ⟨reqs, hf, (checkRequires_iff pkg reqs).mp hcr⟩
    · rintro ⟨reqs, hmem, hex⟩
      refine ⟨.parsed reqs, hmem, ?_⟩
      rw [fileHasDirect_eq_true_iff]
      exact ⟨reqs, rfl, (checkRequires_iff pkg reqs).mpr hex⟩
  · simp [scanPageGo, ctxFire, ctxDec, h1, h2, h3, h4, h5, mapInsert]

/-- C3, witness: the section 8 example, org/repo1 with stars 5000 and a
direct requirement of acme/widget, is stored as used true. -/
theorem claim3_witness :
    emptyMap "org/repo1" = none
    ∧ (scanPageGo "acme/widget" emptyMap exEnv3 false [exRepo3]
        none emptyMap []).1 "org/repo1" = some ⟨"org/repo1", true, 5000⟩ := by
  refine ⟨rfl, ?_⟩
  have h := claim3_used_iff_direct_require "acme/widget"
    [.parsed [⟨"acme/widget", false⟩]] emptyMap exEnv3 exRepo3
    rfl rfl rfl rfl rfl
  exact h.2

/-- An uncancelled scan of a page never reports an error. -/
theorem scanPageGo_none_no_err (pkg : String) (cache : ResultMap)
    (env : String → Except Unit (List FileStep)) (canceled : Bool)
    (repos : List Repo) :
    ∀ (results : ResultMap) (checked : List String),
      (scanPageGo pkg cache env canceled repos none results checked).2.2
        = none := by
  induction repos with
  | nil =>
    intro results checked
    rfl
  | cons repo rest ih =>
    intro results checked
    cases hflag : (repo.archived || repo.disabled || repo.fork) with
    | true => simpa [scanPageGo, ctxFire, ctxDec, hflag] using ih results checked
    | false =>
      cases hc : cache repo.fullName with
      | some v =>
        simpa [scanPageGo, ctxFire, ctxDec, hflag, hc] using ih results checked
      | none =>
        cases he : env repo.fullName with
        | error e =>
          simpa [scanPageGo, ctxFire, ctxDec, hflag, hc, he] using ih _ _
        | ok files =>
          simpa [scanPageGo, ctxFire, ctxDec, hflag, hc, he] using ih _ _

/-- A scan stopped by the k-th cancellation check computes the same
state as an uninterrupted scan of the first k candidates. -/
theorem scanPageGo_cancel_take (pkg : String) (cache : ResultMap)
    (env : String → Except Unit (List FileStep)) (repos : List Repo) :
    ∀ (k : Nat) (results : ResultMap) (checked : List String),
      scanPageGo pkg cache env true repos (some k) results checked
        = scanPageGo pkg cache env true (repos.take k) none results checked := by
  induction repos with
  | nil =>
    intro k results checked
    rw [List.take_nil]
    simp [scanPageGo]
  | cons repo rest ih =>
    intro k results checked
    cases k with
    | zero => rfl
    | succ n =>
      rw [List.take_succ_cons]
      cases hflag : (repo.archived || repo.disabled || repo.fork) with
      | true => simp [scanPageGo, ctxFire, ctxDec, hflag, ih]
      | false =>
        cases hc : cache repo.fullName with
        | some v => simp [scanPageGo, ctxFire, ctxDec, hflag, hc, ih]
        | none =>
          cases he : env repo.fullName with
          | error e => simp [scanPageGo, ctxFire, ctxDec, hflag, hc, he, ih]
          | ok files => simp [scanPageGo, ctxFire, ctxDec, hflag, hc, he, ih]

/-- C6.  A page scan whose context becomes Canceled at the k-th
per-candidate cancellation check returns, with no error, exactly the
state an uninterrupted scan of the first k candidates would have built:
the result mapping holds precisely the fully processed candidates
before the stopping check, and no partially built repoResult appears. -/
theorem claim6_cancellation_returns_processed_items (pkg : String)
    (cache : ResultMap) (env : String → Except Unit (List FileStep))
    (k : Nat) (repos : List Repo) :
    scanPageGo pkg cache env true repos (some k) emptyMap []
      = scanPageGo pkg cache env true (repos.take k) none emptyMap []
    ∧ (scanPageGo pkg cache env true repos (some k) emptyMap []).2.2 = none := by
  have h := scanPageGo_cancel_take pkg cache env repos k emptyMap []
  refine ⟨h, ?_⟩
  rw [h]
  exact scanPageGo_none_no_err pkg cache env true (repos.take k) emptyMap []

/-- A repository present in the cache is never code-searched and never
written to the page's result map, whatever the cancellation state. -/
theorem scanPageGo_cached_untouched (pkg : String) (cache : ResultMap)
    (env : String → Except Unit (List FileStep)) (canceled : Bool)
    (k : String) (w : repoResult) (hk : cache k = some w)
    (repos : List Repo) :
    ∀ (cancelAt : Option Nat) (results : ResultMap) (checked : List String),
      results k = none → k ∉ checked →
      ((scanPageGo pkg cache env canceled repos cancelAt results checked).1 k
          = none
        ∧ k ∉ (scanPageGo pkg cache env canceled
            repos cancelAt results checked).2.1) := by
  induction repos with
  | nil =>
    intro cancelAt results checked hr hc
    exact ⟨hr, hc⟩
  | cons repo rest ih =>
    intro cancelAt results checked hr hc
    cases hfire : ctxFire cancelAt with
    | true =>
      cases canceled <;> simpa [scanPageGo, hfire] using ⟨hr, hc⟩
    | false =>
      cases hflag : (repo.archived || repo.disabled || repo.fork) with
      | true =>
        simpa [scanPageGo, hfire, hflag] using ih _ _ _ hr hc
      | false =>
        cases hcache : cache repo.fullName with
        | some v =>
          simpa [scanPageGo, hfire, hflag, hcache] using ih _ _ _ hr hc
        | none =>
          have hne : repo.fullName ≠ k := by
            intro hEq
            rw [hEq, hk] at hcache
            cases hcache
          have hcheck2 : k ∉ checked ++ [repo.fullName] := by
            simp only [List.mem_append, List.mem_singleton]
            rintro (h | h)
            · exact hc h
            · exact hne h.symm
          cases he : env repo.fullName with
          | error e =>
            simpa [scanPageGo, hfire, hflag, hcache, he] using
              ih _ _ _ hr hcheck2
          | ok files =>
            have hr2 : mapInsert results repo.fullName
                ⟨repo.fullName, (inspectFiles pkg files false).1,
                  repo.stargazersCount⟩ k = none := by
              simp only [mapInsert]
              rw [if_neg (fun h => hne h.symm)]
              exact hr
            simpa [scanPageGo, hfire, hflag, hcache, he] using
              ih _ _ _ hr2 hcheck2

/-- C2.  For a key k already present in the mapping M, the merge in run
keeps M at k unchanged whatever the new results hold, and a repository
cached under k is skipped by the scanner without re-inspection: no code
search is issued for it and the page result map has no entry at k. -/
theorem claim2_cached_repo_skipped_and_merge_keeps_entry
    (M new cache : ResultMap) (pkg : String)
    (env : String → Except Unit (List FileStep)) (canceled : Bool)
    (cancelAt : Option Nat) (repos : List Repo) (k : String)
    (v w : repoResult) (hM : M k = some v) (hcache : cache k = some w) :
    mergeRun M new k = some v
    ∧ (scanPageGo pkg cache env canceled repos cancelAt emptyMap []).1 k = none
    ∧ k ∉ (scanPageGo pkg cache env canceled repos cancelAt emptyMap []).2.1 := by
  have h := scanPageGo_cached_untouched pkg cache env canceled k w hcache
    repos cancelAt emptyMap [] rfl (by simp)
  exact ⟨by simp [mergeRun, hM], h.1, h.2⟩

/-- C2, witness: re-offering a cached repository leaves its cache entry
unchanged, and the scanner neither code-searches it nor emits it. -/
theorem claim2_witness :
    exCache2 "org/cached" = some ⟨"org/cached", true, 7⟩
    ∧ (mergeRun exCache2 emptyMap "org/cached" = some ⟨"org/cached", true, 7⟩
      ∧ (scanPageGo "acme/widget" exCache2 exEnv2 false [exRepo2]
          none emptyMap []).1 "org/cached" = none
      ∧ "org/cached" ∉ (scanPageGo "acme/widget" exCache2 exEnv2 false
          [exRepo2] none emptyMap []).2.1) :=
  ⟨rfl, claim2_cached_repo_skipped_and_merge_keeps_entry exCache2 emptyMap
    exCache2 "acme/widget" exEnv2 false none [exRepo2] "org/cached"
    ⟨"org/cached", true, 7⟩ ⟨"org/cached", true, 7⟩ rfl rfl⟩

/-- C7, counterexample.  When the scan of page 1 fails, the continue at
main.go line 236 skips the page advance at line 253, so the next
repository-search call is issued for page 1 again: with two loop
iterations the fetch trace is page 1 twice, not page 1 then page 2 as
the claim's advancing of the page index requires. -/
theorem claim7_same_page_refetched_after_scan_error :
    (searchLoop fetch7 scan7 ctxNeverDone 0 1 emptyMap 2).2 = [1, 1]
    ∧ ([1, 1] : List Nat) ≠ [1, 2] :=
  ⟨rfl, by decide⟩

/-- C7, amended.  When the scan step of the current page fails, the
controller logs the failure and continues the loop rather than
aborting, contributing nothing to the accumulated results -- but the
page index is not advanced: the loop re-enters with the same page and
the same accumulated results, so the same page is fetched again. -/
theorem claim7_scan_error_continues_same_page
    (fetch : Nat → Except Unit (List Repo × Nat))
    (scan : Nat → List Repo → Except Unit ResultMap) (ctx : Nat → CtxState)
    (iter page : Nat) (results : ResultMap) (fuel : Nat)
    (repos : List Repo) (next : Nat)
    (hctx : ctx iter = .notDone) (hfetch : fetch page = .ok (repos, next))
    (hscan : scan iter repos = .error ()) :
    searchLoop fetch scan ctx iter page results (fuel + 1)
      = ((searchLoop fetch scan ctx (iter + 1) page results fuel).1,
          page :: (searchLoop fetch scan ctx (iter + 1) page results fuel).2) := by
  simp [searchLoop, hctx, hfetch, hscan]

/-- C7, witness at a concrete environment. -/
theorem claim7_witness :
    searchLoop fetch7 scan7 ctxNeverDone 0 1 emptyMap 1
      = ((searchLoop fetch7 scan7 ctxNeverDone 1 1 emptyMap 0).1,
          1 :: (searchLoop fetch7 scan7 ctxNeverDone 1 1 emptyMap 0).2) :=
  claim7_scan_error_continues_same_page fetch7 scan7 ctxNeverDone
    0 1 emptyMap 0 [] 2 rfl rfl rfl

/-- Disjointness of page maps is symmetric. -/
theorem mapDisjoint_symm : ∀ ⦃p q : ResultMap⦄, MapDisjoint p q → MapDisjoint q p :=
  fun _ _ h k => (h k).elim Or.inr Or.inl

/-- Merging a page leaves a key absent exactly when it was absent both
in the accumulator and in the page. -/
theorem updateResults_none_iff (acc q : ResultMap) (k : String) :
    updateResults acc q k = none ↔ q k = none ∧ acc k = none := by
  unfold updateResults
  cases hq : q k <;> simp

/-- Pages holding nothing at a key do not change the accumulator
there. -/
theorem foldl_update_skip (k : String) (ps : List ResultMap) :
    ∀ acc : ResultMap, (∀ p ∈ ps, p k = none) →
      (ps.foldl updateResults acc) k = acc k := by
  induction ps with
  | nil =>
    intro acc _
    rfl
  | cons q rest ih =>
    intro acc h
    rw [List.foldl_cons, ih _ fun p hp => h p (List.mem_cons_of_mem _ hp)]
    simp [updateResults, h q (List.mem_cons_self ..)]

/-- A key is absent after merging all pages exactly when it is absent
from the initial accumulator and every page. -/
theorem foldl_update_none_iff (k : String) (ps : List ResultMap) :
    ∀ acc : ResultMap,
      ((ps.foldl updateResults acc) k = none ↔
        acc k = none ∧ ∀ p ∈ ps, p k = none) := by
  induction ps with
  | nil =>
    intro acc
    simp
  | cons q rest ih =>
    intro acc
    rw [List.foldl_cons, ih, updateResults_none_iff]
    constructor
    · rintro ⟨⟨hq, hacc⟩, hrest⟩
      refine ⟨hacc, fun p hp => ?_⟩
      rcases List.mem_cons.mp hp with rfl | hp2
      · exact hq
      · exact hrest p hp2
    · rintro ⟨hacc, hall⟩
      exact ⟨⟨hall q (List.mem_cons_self ..), hacc⟩,
        fun p hp => hall p (List.mem_cons_of_mem _ hp)⟩

/-- A value present after merging all pages comes from the accumulator
or from some page. -/
theorem foldl_update_some_from (k : String) (v : repoResult)
    (ps : List ResultMap) :
    ∀ acc : ResultMap, (ps.foldl updateResults acc) k = some v →
      acc k = some v ∨ ∃ p ∈ ps, p k = some v := by
  induction ps with
  | nil =>
    intro acc h
    exact Or.inl h
  | cons q rest ih =>
    intro acc h
    rw [List.foldl_cons] at h
    rcases ih _ h with hup | ⟨p, hp, hv⟩
    · revert hup
      unfold updateResults
      cases hq : q k with
      | some w =>
        intro hup
        exact Or.inr ⟨q, List.mem_cons_self .., hq.trans hup⟩
      | none =>
        intro hup
        exact Or.inl hup
    · exact Or.inr ⟨p, List.mem_cons_of_mem _ hp, hv⟩

/-- On pairwise disjoint pages, the value a member page holds at a key
survives the whole merge, whatever the order. -/
theorem foldl_update_some_of_mem (k : String) (v : repoResult)
    (ps : List ResultMap) :
    ∀ (acc p : ResultMap), p ∈ ps → p k = some v →
      ps.Pairwise MapDisjoint →
      (ps.foldl updateResults acc) k = some v := by
  induction ps with
  | nil =>
    intro acc p hp
    cases hp
  | cons q rest ih =>
    intro acc p hp hv hdisj
    rw [List.foldl_cons]
    rcases List.mem_cons.mp hp with rfl | hmem
    · have hrest : ∀ r ∈ rest, r k = none := by
        intro r hr
        rcases (List.pairwise_cons.mp hdisj).1 r hr k with hq | hrk
        · rw [hv] at hq
          cases hq
        · exact hrk
      rw [foldl_update_skip k rest _ hrest]
      simp [updateResults, hv]
    · exact ih _ p hmem hv (List.pairwise_cons.mp hdisj).2

/-- C9, counterexample.  The per-page merge overwrites entries, so two
pages that both hold a key give different final mappings depending on
the merge order: the claim's order-independence fails, and the final
mapping depends on the values, not only on which keys exist. -/
theorem claim9_overlapping_pages_order_dependent :
    mergePages [exP9a, exP9b] "repo/x" ≠ mergePages [exP9b, exP9a] "repo/x" := by
  decide

/-- C9, amended.  Merging page result mappings is order-independent
when the pages are pairwise disjoint on keys (as when no repository
appears on two pages): any permutation of the pages merges to the same
mapping.  With overlapping keys the merge is last-write-wins and order
matters. -/
theorem claim9_disjoint_merge_order_independent
    (pages pages2 : List ResultMap) (hperm : pages.Perm pages2)
    (hdisj : pages.Pairwise MapDisjoint) :
    ∀ k, mergePages pages k = mergePages pages2 k := by
  intro k
  have hdisj2 : pages2.Pairwise MapDisjoint :=
    hperm.pairwise hdisj fun h => mapDisjoint_symm h
  cases hv : mergePages pages k with
  | none =>
    rw [mergePages] at hv
    have h := (foldl_update_none_iff k pages emptyMap).mp hv
    rw [mergePages]
    exact ((foldl_update_none_iff k pages2 emptyMap).mpr
      ⟨rfl, fun p hp => h.2 p (hperm.symm.subset hp)⟩).symm ▸ rfl
  | some v =>
    rw [mergePages] at hv
    rcases foldl_update_some_from k v pages emptyMap hv with hemp | ⟨p, hp, hpv⟩
    · cases hemp
    · rw [mergePages]
      exact (foldl_update_some_of_mem k v pages2 emptyMap p
        (hperm.subset hp) hpv hdisj2).symm

/-- C9, witness: two disjoint pages merge to the same value at one/a in
either order. -/
theorem claim9_witness :
    mergePages [exQ9a, exQ9b] "one/a" = mergePages [exQ9b, exQ9a] "one/a" := by
  have hdisj : List.Pairwise MapDisjoint [exQ9a, exQ9b] := by
    refine List.pairwise_cons.mpr ⟨?_, List.pairwise_singleton ..⟩
    intro p hp k
    rw [List.mem_singleton.mp hp]
    by_cases hk : k = "one/a"
    · subst hk
      exact Or.inr rfl
    · exact Or.inl (by simp [exQ9a, mapInsert, emptyMap, hk])
  exact claim9_disjoint_merge_order_independent [exQ9a, exQ9b] [exQ9b, exQ9a]
    (List.Perm.swap exQ9b exQ9a []) hdisj "one/a"

/-- C5, counterexample.  For two entries with equal star counts inserted
as alpha/a then beta/b, the reversed slice is a perfectly valid outcome
of lines 143-150 (map enumeration order is unspecified and sort.Slice
is not stability-guaranteed), yet its serialized rows differ from the
stable descending order the claim requires, so the persisted output is
neither insertion-order stable nor deterministic. -/
theorem claim5_tie_order_not_deterministic :
    persistRel [exA5, exB5] [exB5, exA5]
    ∧ [exB5, exA5].map serializeRow
      ≠ (specStableDescSort [exA5, exB5]).map serializeRow := by
  refine ⟨⟨List.Perm.swap exA5 exB5 [], by decide⟩, by decide⟩

/-- C5, amended.  The persisted rows are the serialized triples (name,
"true" or "false", decimal star count) of some permutation of the
merged entries arranged with star counts non-increasing: the stable
descending order is one possible outcome, and every outcome is such a
sorted permutation -- but the relative order of rows with equal star
counts is not specified, so the output is not deterministic. -/
theorem claim5_sorted_desc_permutation (entries : List repoResult) :
    persistRel entries (specStableDescSort entries)
    ∧ ∀ out, persistRel entries out →
        (out.map serializeRow).Perm (entries.map serializeRow)
        ∧ out.Pairwise starsGe := by
  constructor
  · exact ⟨List.perm_insertionSort starsGe entries,
      List.sorted_insertionSort starsGe entries⟩
  · intro out h
    exact ⟨h.1.map serializeRow, h.2⟩

/-- C5, witness: the amended statement applied at a two-entry mapping
and the reversed valid outcome. -/
theorem claim5_witness :
    persistRel [exA5, exB5] (specStableDescSort [exA5, exB5])
    ∧ (([exB5, exA5].map serializeRow).Perm ([exA5, exB5].map serializeRow)
      ∧ [exB5, exA5].Pairwise starsGe) :=
  ⟨(claim5_sorted_desc_permutation [exA5, exB5]).1,
    (claim5_sorted_desc_permutation [exA5, exB5]).2 [exB5, exA5]
      ⟨List.Perm.swap exA5 exB5 [], by decide⟩⟩

